import Mathlib

/-!
Verification of the drawercli launcher (src/Drawercli.go) against its
natural-language specification.

Modelling conventions:
* Go strings are modelled as `List Char` (the program only manipulates
  ASCII command output, so byte-wise and rune-wise views coincide for
  every property below).
* All external process invocations (`pm`, `aapt`, `fzf`, `am`,
  `termux-open-url`) are modelled as oracle inputs: the pure functions
  below receive the strings those tools returned and mirror exactly the
  Go code that consumes them.
* Stateful control flow in `main` becomes a pure function producing a
  `MainResult` (exit code, the dispatch action reached, and whether the
  selector was invoked).
-/

namespace Drawercli

/-- Go strings, viewed as character lists. -/
abbrev Str := List Char

/-- The tab character used by the exchange format. -/
def tabChar : Char := Char.ofNat 9

/-- The newline character separating lines of tool output. -/
def nlChar : Char := Char.ofNat 10

/-- The pipe character separating identifier from entry point. -/
def pipeChar : Char := Char.ofNat 124

/-- The single-quote character stripped around `application-label:` values. -/
def quoteChar : Char := Char.ofNat 39

/-- Whitespace predicate backing `strings.TrimSpace`
(`unicode.IsSpace`; for the ASCII range used here it agrees with
`Char.isWhitespace`). -/
def isSpace (c : Char) : Bool := c.isWhitespace

/-- `strings.TrimSpace`: drop leading and trailing whitespace. -/
def trimSpace (s : Str) : Str :=
  ((s.dropWhile isSpace).reverse.dropWhile isSpace).reverse

/-- `strings.TrimPrefix(s, pat)`: drop `pat` when it is a prefix, else return
`s` unchanged. -/
def trimPfx (pat s : Str) : Str :=
  if pat.isPrefixOf s then s.drop pat.length else s

/-- `strings.Trim(s, "'")`: drop leading and trailing single quotes. -/
def trimQuotes (s : Str) : Str :=
  ((s.dropWhile (· = quoteChar)).reverse.dropWhile (· = quoteChar)).reverse

/-- `strings.Split(s, sep)` for a one-character separator (used with
`"\n"`): split at every occurrence, never returns `[]`. -/
def splitChar (c : Char) : Str → List Str
  | [] => [[]]
  | a :: rest =>
    match splitChar c rest with
    | [] => [[]]
    | h :: t => if a = c then [] :: h :: t else (a :: h) :: t

/-- `strings.SplitN(s, sep, 2)` for a one-character separator: split at the
first occurrence only; a list of length 1 when the separator is absent,
length 2 otherwise. -/
def splitN2 (c : Char) : Str → List Str
  | [] => [[]]
  | a :: rest =>
    if a = c then [[], rest]
    else
      match splitN2 c rest with
      | [] => [[a]]
      | h :: t => (a :: h) :: t

/-- Everything after the first occurrence of `pat` in `s`
(`strings.Index(s, pat)` followed by slicing `s[idx+len(pat):]`), or `none`
when `pat` does not occur. -/
def afterFirst (pat : Str) : Str → Option Str
  | [] => if pat.isEmpty then some [] else none
  | l@(_ :: rest) =>
    if pat.isPrefixOf l then some (l.drop pat.length)
    else afterFirst pat rest

/-- `strings.Contains(s, pat)`. -/
def containsSub (pat s : Str) : Bool := (afterFirst pat s).isSome

/-- `firstLineContaining(s, substr)` from the source: scan `s` line by line
and return the first line containing `substr`, or the empty string. -/
def firstLineContaining (pat s : Str) : Str :=
  ((splitChar nlChar s).find? (fun l => containsSub pat l)).getD []

/-- The string `runCmd` returns, as a function of the command's captured
standard output, captured standard error, and whether `cmd.Run()` reported
success.  On failure the two streams are concatenated with a newline and
trimmed; on success only standard output is returned, trimmed. -/
def runCmd (stdout stderr : Str) (ok : Bool) : Str :=
  if ok then trimSpace stdout
  else trimSpace (stdout ++ [nlChar] ++ stderr)

/-- The record `probePackage` builds for one package. -/
structure AppInfo where
  Label : Str
  Package : Str
  Main : Str
deriving DecidableEq, Repr

/-- The sentinel entry-point value written by the source. -/
def unknownMain : Str := "UNKNOWN_MAIN".toList

/-- The `name=` marker scanned for in `pm resolve-activity` output. -/
def nameMarker : Str := "name=".toList

/-- The `package:` marker stripped from `pm` output lines. -/
def pkgMarker : Str := "package:".toList

/-- The `application-label:` marker scanned for in `aapt` output. -/
def labelMarker : Str := "application-label:".toList

/-- Outputs of the three external lookups `probePackage` performs for one
identifier.  `resolveOut` and `pathOut` are the strings `runCmd` returned
(the source discards those calls' error values); `aaptOut`/`aaptOk` are the
output and success flag of the `aapt dump badging` call. -/
structure ProbeOracle where
  resolveOut : Str
  pathOut : Str
  aaptOut : Str
  aaptOk : Bool

/-- Entry-point extraction from `pm resolve-activity` output (lines 76-83 of
the source): first line containing `name=`, then everything after the first
`name=` in that line, trimmed; empty when no line matches. -/
def extractMain (resolveOut : Str) : Str :=
  let line := firstLineContaining nameMarker resolveOut
  if line.isEmpty then []
  else
    match afterFirst nameMarker line with
    | some rest => trimSpace rest
    | none => []

/-- Install-path extraction from `pm path` output (lines 87-95): first line
that is non-empty after trimming and stripping the `package:` marker. -/
def extractPath (pathOut : Str) : Str :=
  ((splitChar nlChar pathOut).findSome? (fun pl =>
    let p := trimPfx pkgMarker (trimSpace pl)
    if p.isEmpty then none else some p)).getD []

/-- Label extraction from `aapt dump badging` output (lines 99-115): only
attempted when the call succeeded with non-empty output; first line
containing `application-label:`, value after the marker with surrounding
single quotes stripped. -/
def extractLabel (aaptOk : Bool) (aaptOut : Str) : Str :=
  if aaptOk && !aaptOut.isEmpty then
    let line := firstLineContaining labelMarker aaptOut
    if line.isEmpty then []
    else
      match afterFirst labelMarker line with
      | some rest => trimQuotes rest
      | none => []
  else []

/-- `probePackage`: three independent lookups with fallbacks.  The source
always returns a non-nil record and a nil error; `some` models that pair
(the worker's `err == nil && info != nil` guard). -/
def probePackage (pkg : Str) (o : ProbeOracle) : Option AppInfo :=
  let main := extractMain o.resolveOut
  let apkPath := extractPath o.pathOut
  let label0 := if apkPath.isEmpty then [] else extractLabel o.aaptOk o.aaptOut
  let label := if label0.isEmpty then pkg else label0
  let mainF := if main.isEmpty then unknownMain else main
  some { Label := label, Package := pkg, Main := mainF }

/-- The worker-pool size (lines 145-151): `runtime.NumCPU()` clamped to at
least 4 and at most 16. -/
def numWorkers (numCPU : Nat) : Nat :=
  let n := numCPU
  let n := if n < 4 then 4 else n
  let n := if n > 16 then 16 else n
  n

/-- One worker iteration per identifier: the record is kept when
`probePackage` reports success (it always does).  The collected list, in
enqueue order; any completion order is a permutation of it. -/
def probeAll (pkgs : List Str) (oracle : Str → ProbeOracle) : List AppInfo :=
  pkgs.flatMap (fun p =>
    match probePackage p (oracle p) with
    | some info => [info]
    | none => [])

/-- `getPackages` (lines 36-54): parse `pm list packages` output into
identifiers — the error of the listing call is only warned about, its
output is used regardless. -/
def getPackages (listOut : Str) : List Str :=
  if listOut.isEmpty then []
  else (splitChar nlChar listOut).filterMap (fun l =>
    let p := trimPfx pkgMarker (trimSpace l)
    if p.isEmpty then none else some p)

/-- Go's `<` on strings: lexicographic byte order (the program's strings are
ASCII, where byte order and `Char` order agree). -/
def strLt : Str → Str → Bool
  | [], [] => false
  | [], _ :: _ => true
  | _ :: _, [] => false
  | a :: as, b :: bs => if a = b then strLt as bs else decide (a < b)

/-- The non-strict order induced by `strLt` (what a comparison sort on the
`less` predicate guarantees between output neighbours). -/
def strLe (a b : Str) : Bool := !(strLt b a)

/-- `strings.ToLower`, character-wise (ASCII case folding; the marker and
label strings involved are ASCII). -/
def lowerStr (s : Str) : Str := s.map Char.toLower

/-- The comparator of the `sort.Slice` call (lines 187-189):
`strings.ToLower(apps[i].Label) < strings.ToLower(apps[j].Label)`. -/
def appLess (a b : AppInfo) : Bool := strLt (lowerStr a.Label) (lowerStr b.Label)

/-- Non-strict version of `appLess`: what sorting with `appLess` guarantees
about the output order. -/
def appLe (a b : AppInfo) : Prop := strLe (lowerStr a.Label) (lowerStr b.Label) = true

instance : DecidableRel appLe := fun a b => by unfold appLe; infer_instance

/-- The sort step of lines 187-189.  Go's `sort.Slice` runs an unspecified
comparison sort over the `appLess` comparator; we model it with insertion
sort over the same comparator (on any two-element slice the two coincide:
elements are swapped exactly when the comparator orders them strictly). -/
def sortApps (apps : List AppInfo) : List AppInfo :=
  List.insertionSort appLe apps

/-- One exchange-format line, without its trailing newline:
`<label>\t<identifier>|<entryPoint>` (line 193 of the source). -/
def serializeRecord (a : AppInfo) : Str :=
  a.Label ++ [tabChar] ++ a.Package ++ [pipeChar] ++ a.Main

/-- The full block fed to the selector: one newline-terminated line per
record. -/
def fzfInput (apps : List AppInfo) : Str :=
  apps.flatMap (fun a => serializeRecord a ++ [nlChar])

/-- The selector-line parse of lines 212-223: split on the first tab into
exactly two parts, then split the second part on the first pipe into
exactly two parts; `none` on any other field count. -/
def parseChosen (chosen : Str) : Option (Str × Str) :=
  match splitN2 tabChar chosen with
  | [_, line] =>
    match splitN2 pipeChar line with
    | [pkg, intent] => some (pkg, intent)
    | _ => none
  | _ => none

/-- The final action `main` reaches. -/
inductive Dispatch where
  /-- `am start --user 0 -n <pkg>/<intent>` (lines 232-236). -/
  | launch (target : Str)
  /-- `termux-open-url <url>` (lines 229-230). -/
  | openUrl (url : Str)
deriving DecidableEq, Repr

/-- The base of the store-page URL built on line 229. -/
def storeBase : Str := "https://play.google.com/store/apps/details?id=".toList

/-- The observable outcome of a `main` run: process exit code, the dispatch
action reached (if any), and whether the external selector was started. -/
structure MainResult where
  exitCode : Nat
  dispatch : Option Dispatch
  selectorInvoked : Bool
deriving DecidableEq, Repr

/-- Lines 212-237 of `main`: parse the (already trimmed, non-empty) chosen
line and dispatch.  A malformed line exits 1; the sentinel entry point
routes to the store URL, anything else to the launch command; either
dispatch lets `main` return normally (exit code 0). -/
def dispatchChosen (chosen : Str) : MainResult :=
  match splitN2 tabChar chosen with
  | [_, line] =>
    match splitN2 pipeChar line with
    | [pkg, intent] =>
      if intent = unknownMain then
        ⟨0, some (.openUrl (storeBase ++ pkg)), true⟩
      else
        ⟨0, some (.launch (pkg ++ [Char.ofNat 47] ++ intent)), true⟩
    | _ => ⟨1, none, true⟩
  | _ => ⟨1, none, true⟩

/-- The whole of `main` (lines 133-237) as a function of its oracle inputs:
the listing tool's output, the per-identifier probe outputs, and the
selector's success flag and standard output.  The sorted, serialized list
is fed to the selector, whose choice is an independent external input. -/
def mainModel (listOut : Str) (oracle : Str → ProbeOracle)
    (fzfOk : Bool) (fzfOut : Str) : MainResult :=
  let pkgs := getPackages listOut
  if pkgs.isEmpty then ⟨1, none, false⟩
  else
    let apps := sortApps (probeAll pkgs oracle)
    let _input := fzfInput apps
    if !fzfOk then ⟨1, none, true⟩
    else
      let chosen := trimSpace fzfOut
      if chosen.isEmpty then ⟨1, none, true⟩
      else dispatchChosen chosen

/-! ### Order-theoretic facts about the comparator -/

/-- Lexicographic order on strings is asymmetric. -/
theorem strLt_asymm : ∀ a b : Str, strLt a b = true → strLt b a = false := by
  intro a
  induction a with
  | nil => intro b h; cases b <;> simp [strLt] at *
  | cons x xs ih =>
    intro b h
    cases b with
    | nil => simp [strLt] at h
    | cons y ys =>
      simp only [strLt] at h ⊢
      by_cases hxy : x = y
      · subst hxy; simp only [if_pos rfl] at h ⊢; exact ih ys h
      · have hyx : ¬ y = x := fun e => hxy e.symm
        simp only [if_neg hxy] at h
        simp only [if_neg hyx]
        have hlt : x < y := of_decide_eq_true h
        simpa using lt_asymm hlt

/-- Lexicographic order on strings is transitive. -/
theorem strLt_trans : ∀ a b c : Str, strLt a b = true → strLt b c = true → strLt a c = true := by
  intro a
  induction a with
  | nil =>
    intro b c h1 h2
    cases c with
    | nil => cases b <;> simp [strLt] at h2
    | cons z zs => simp [strLt]
  | cons x xs ih =>
    intro b c h1 h2
    cases b with
    | nil => simp [strLt] at h1
    | cons y ys =>
      cases c with
      | nil => simp [strLt] at h2
      | cons z zs =>
        simp only [strLt] at h1 h2 ⊢
        by_cases hxy : x = y
        · subst hxy
          simp only [if_pos rfl] at h1
          by_cases hyz : x = z
          · subst hyz
            simp only [if_pos rfl] at h2 ⊢
            exact ih ys zs h1 h2
          · simp only [if_neg hyz] at h2 ⊢; exact h2
        · simp only [if_neg hxy] at h1
          have hlt1 : x < y := of_decide_eq_true h1
          by_cases hyz : y = z
          · subst hyz
            simp only [if_neg hxy]
            exact decide_eq_true hlt1
          · simp only [if_neg hyz] at h2
            have hlt2 : y < z := of_decide_eq_true h2
            have hlt : x < z := lt_trans hlt1 hlt2
            have hxz : ¬ x = z := ne_of_lt hlt
            simp only [if_neg hxz]
            exact decide_eq_true hlt

/-- Strings unrelated by `strLt` in either direction are equal. -/
theorem strLt_connex : ∀ a b : Str, strLt a b = false → strLt b a = false → a = b := by
  intro a
  induction a with
  | nil =>
    intro b h1 _
    cases b with
    | nil => rfl
    | cons y ys => simp [strLt] at h1
  | cons x xs ih =>
    intro b h1 h2
    cases b with
    | nil => simp [strLt] at h2
    | cons y ys =>
      simp only [strLt] at h1 h2
      by_cases hxy : x = y
      · subst hxy
        simp only [if_pos rfl] at h1 h2
        rw [ih ys h1 h2]
      · have hyx : ¬ y = x := fun e => hxy e.symm
        simp only [if_neg hxy] at h1
        simp only [if_neg hyx] at h2
        have n1 : ¬ x < y := of_decide_eq_false h1
        have n2 : ¬ y < x := of_decide_eq_false h2
        exact absurd (le_antisymm (le_of_not_lt n2) (le_of_not_lt n1)) hxy

/-- `strLe` is total. -/
theorem strLe_total (a b : Str) : strLe a b = true ∨ strLe b a = true := by
  unfold strLe
  cases h : strLt b a with
  | false => left; rfl
  | true => right; rw [strLt_asymm b a h]; rfl

/-- `strLe` is transitive. -/
theorem strLe_trans (a b c : Str) : strLe a b = true → strLe b c = true → strLe a c = true := by
  unfold strLe
  intro h1 h2
  have hba : strLt b a = false := by simpa using h1
  have hcb : strLt c b = false := by simpa using h2
  cases hca : strLt c a with
  | false => rfl
  | true =>
    exfalso
    cases hcbv : strLt b c with
    | false =>
      have := strLt_connex b c hcbv hcb
      subst this
      rw [hca] at hba
      exact Bool.noConfusion hba
    | true =>
      have := strLt_trans b c a hcbv hca
      rw [this] at hba
      exact Bool.noConfusion hba

instance : IsTotal AppInfo appLe :=
  ⟨fun a b => strLe_total (lowerStr a.Label) (lowerStr b.Label)⟩

instance : IsTrans AppInfo appLe :=
  ⟨fun a b c h1 h2 => strLe_trans _ _ _ h1 h2⟩

/-! ### Facts about the probing pipeline -/

/-- `probePackage` always succeeds with a record carrying its identifier:
the source returns a non-nil record and a nil error on every path. -/
theorem probePackage_eq_some (pkg : Str) (o : ProbeOracle) :
    ∀ info, probePackage pkg o = some info → info.Package = pkg := by
  intro info h
  simp only [probePackage] at h
  injection h with h
  subst h
  rfl

/-- The collected records carry exactly the supplied identifiers, in
enqueue order. -/
theorem probeAll_map_package (pkgs : List Str) (oracle : Str → ProbeOracle) :
    (probeAll pkgs oracle).map (fun a => a.Package) = pkgs := by
  induction pkgs with
  | nil => rfl
  | cons p ps ih =>
    obtain ⟨info, hinfo⟩ : ∃ info, probePackage p (oracle p) = some info := ⟨_, rfl⟩
    have hstep : probeAll (p :: ps) oracle = info :: probeAll ps oracle := by
      simp [probeAll, hinfo]
    rw [hstep, List.map_cons, ih, probePackage_eq_some p (oracle p) info hinfo]

/-- Splitting at the first occurrence of `c` recovers the two halves when
the first half does not contain `c`. -/
theorem splitN2_append (c : Char) (b : Str) :
    ∀ a : Str, c ∉ a → splitN2 c (a ++ c :: b) = [a, b] := by
  intro a
  induction a with
  | nil => intro _; simp [splitN2]
  | cons x xs ih =>
    intro h
    have hxc : ¬ x = c := fun e => h (by simp [e])
    have hrest : c ∉ xs := fun m => h (List.mem_cons_of_mem _ m)
    simp only [List.cons_append, splitN2, if_neg hxc]
    rw [show xs.append (c :: b) = xs ++ c :: b from rfl, ih hrest]

/-! ### Concrete fixtures used by witnesses and counterexamples -/

/-- An oracle for an identifier none of whose lookups produced usable
output: the entry-point lookup returned only an error message, the path
lookup returned nothing, and the badging tool failed with no output. -/
def failOracle : ProbeOracle := ⟨"error: not found".toList, [], [], false⟩

/-- A two-identifier input list. -/
def twoPkgs : List Str := ["com.a".toList, "com.b".toList]

/-- The fully-resolved record of the spec's round-trip example. -/
def chromeRec : AppInfo :=
  ⟨"Chrome".toList, "com.android.chrome".toList, "com.android.chrome.Main".toList⟩

/-! ### Claim theorems -/

/-- C1 (amended): for every identifier whose entry-point lookup output
contains no line with a `name=` marker, the produced record's entry point
is exactly the sentinel `UNKNOWN_MAIN` — never empty, never any other
value. -/
theorem unresolved_entry_is_sentinel (pkg : Str) (o : ProbeOracle) (info : AppInfo)
    (hp : probePackage pkg o = some info)
    (hnone : firstLineContaining nameMarker o.resolveOut = []) :
    info.Main = unknownMain := by
  have hmain : extractMain o.resolveOut = [] := by
    simp [extractMain, hnone]
  simp only [probePackage, hmain] at hp
  injection hp with hp
  subst hp
  rfl

/-- C1 witness: a concrete identifier whose lookup returned only an error
message gets the sentinel entry point. -/
theorem unresolved_entry_is_sentinel_witness :
    (probePackage "com.x".toList failOracle =
        some ⟨"com.x".toList, "com.x".toList, unknownMain⟩ ∧
      firstLineContaining nameMarker failOracle.resolveOut = []) ∧
    AppInfo.Main ⟨"com.x".toList, "com.x".toList, unknownMain⟩ = unknownMain :=
  ⟨⟨by decide, by decide⟩,
    unresolved_entry_is_sentinel "com.x".toList failOracle _ (by decide) (by decide)⟩

/-- C1 counterexample: the sentinel the code writes is `UNKNOWN_MAIN`, not
the `UNKNOWN_ENTRY` the claim requires: an identifier with a failed,
marker-free lookup gets entry point `UNKNOWN_MAIN`, which differs from
`UNKNOWN_ENTRY`. -/
theorem entry_sentinel_name_cex :
    probePackage "com.x".toList failOracle =
      some ⟨"com.x".toList, "com.x".toList, "UNKNOWN_MAIN".toList⟩ ∧
    "UNKNOWN_MAIN".toList ≠ "UNKNOWN_ENTRY".toList := by decide

/-- C2: for N supplied identifiers, exactly N records are collected in any
completion order — one per identifier, none dropped, none duplicated,
whatever each identifier's lookups returned. -/
theorem one_record_per_identifier (pkgs : List Str) (oracle : Str → ProbeOracle)
    (collected : List AppInfo) (hperm : collected.Perm (probeAll pkgs oracle)) :
    collected.length = pkgs.length ∧
      (collected.map (fun a => a.Package)).Perm pkgs := by
  constructor
  · have hlen : (probeAll pkgs oracle).length = pkgs.length := by
      conv_rhs => rw [← probeAll_map_package pkgs oracle]
      rw [List.length_map]
    rw [hperm.length_eq, hlen]
  · have hm := hperm.map (fun a => a.Package)
    rwa [probeAll_map_package] at hm

/-- C2 witness: two identifiers whose every lookup fails still produce
exactly two records, one per identifier. -/
theorem one_record_per_identifier_witness :
    (probeAll twoPkgs (fun _ => failOracle)).Perm (probeAll twoPkgs (fun _ => failOracle)) ∧
    ((probeAll twoPkgs (fun _ => failOracle)).length = twoPkgs.length ∧
      ((probeAll twoPkgs (fun _ => failOracle)).map (fun a => a.Package)).Perm twoPkgs) :=
  ⟨List.Perm.refl _,
    one_record_per_identifier twoPkgs (fun _ => failOracle) _ (List.Perm.refl _)⟩

/-- C3: whenever label extraction fails — no install path, badging tool
failed, badging tool produced no output, or no `application-label:` line —
the record's label equals the identifier exactly. -/
theorem label_falls_back_to_identifier (pkg : Str) (o : ProbeOracle) (info : AppInfo)
    (hp : probePackage pkg o = some info)
    (hfail : extractPath o.pathOut = [] ∨ o.aaptOk = false ∨ o.aaptOut = [] ∨
      firstLineContaining labelMarker o.aaptOut = []) :
    info.Label = pkg := by
  have hlab : (if (extractPath o.pathOut).isEmpty then ([] : Str)
      else extractLabel o.aaptOk o.aaptOut) = [] := by
    rcases hfail with h | h | h | h
    · simp [h]
    · simp [extractLabel, h]
    · simp [extractLabel, h]
    · simp only [extractLabel, h]
      split <;> simp
  simp only [probePackage] at hp
  rw [hlab] at hp
  simp only [List.isEmpty_nil, if_pos] at hp
  injection hp with hp
  subst hp
  rfl

/-- C3 witness: an identifier with no install path and a failed badging
call keeps the identifier itself as its label. -/
theorem label_falls_back_to_identifier_witness :
    (probePackage "com.x".toList failOracle =
        some ⟨"com.x".toList, "com.x".toList, unknownMain⟩ ∧
      (extractPath failOracle.pathOut = [] ∨ failOracle.aaptOk = false ∨
        failOracle.aaptOut = [] ∨
        firstLineContaining labelMarker failOracle.aaptOut = [])) ∧
    AppInfo.Label ⟨"com.x".toList, "com.x".toList, unknownMain⟩ = "com.x".toList :=
  ⟨⟨by decide, by decide⟩,
    label_falls_back_to_identifier "com.x".toList failOracle _ (by decide) (by decide)⟩

/-- C5 (amended): on failure `runCmd` returns standard output and standard
error concatenated (newline between) and trimmed; on success it returns
only standard output, trimmed — standard error is discarded. -/
theorem runCmd_output_shape (stdout stderr : Str) :
    runCmd stdout stderr false = trimSpace (stdout ++ [nlChar] ++ stderr) ∧
    runCmd stdout stderr true = trimSpace stdout :=
  ⟨rfl, rfl⟩

/-- C5 counterexample: a succeeding command with stdout `"a"` and stderr
`"b"` returns `"a"`, not the claimed trimmed concatenation `"a\nb"`. -/
theorem runCmd_success_drops_stderr_cex :
    runCmd "a".toList "b".toList true = "a".toList ∧
    trimSpace ("a".toList ++ [nlChar] ++ "b".toList) = "a\nb".toList ∧
    runCmd "a".toList "b".toList true ≠
      trimSpace ("a".toList ++ [nlChar] ++ "b".toList) := by decide

/-- C9: the worker-pool size is the number of processing units clamped to
the interval [4, 16]; in particular 64 units give 16 workers and 1 unit
gives 4. -/
theorem pool_size_clamped :
    (∀ n : Nat, numWorkers n = min 16 (max 4 n)) ∧
    numWorkers 64 = 16 ∧ numWorkers 1 = 4 := by
  refine ⟨fun n => ?_, rfl, rfl⟩
  simp only [numWorkers]
  split_ifs <;> omega

/-- C10: serializing a record whose label contains no tab and no newline
and whose identifier contains no pipe into the exchange line, then parsing
it back (first tab, then first pipe), recovers the identifier and entry
point exactly. -/
theorem exchange_roundtrip (r : AppInfo)
    (hTab : tabChar ∉ r.Label) (hNl : nlChar ∉ r.Label) (hPipe : pipeChar ∉ r.Package) :
    parseChosen (serializeRecord r) = some (r.Package, r.Main) := by
  have hser : serializeRecord r =
      r.Label ++ tabChar :: (r.Package ++ pipeChar :: r.Main) := by
    simp [serializeRecord]
  have h1 : splitN2 tabChar (serializeRecord r) =
      [r.Label, r.Package ++ pipeChar :: r.Main] := by
    rw [hser]
    exact splitN2_append tabChar (r.Package ++ pipeChar :: r.Main) r.Label hTab
  have h2 : splitN2 pipeChar (r.Package ++ pipeChar :: r.Main) = [r.Package, r.Main] :=
    splitN2_append pipeChar r.Main r.Package hPipe
  simp [parseChosen, h1, h2]

/-- C10 witness: the spec's own example record round-trips. -/
theorem exchange_roundtrip_witness :
    (tabChar ∉ chromeRec.Label ∧ nlChar ∉ chromeRec.Label ∧
      pipeChar ∉ chromeRec.Package) ∧
    parseChosen (serializeRecord chromeRec) = some (chromeRec.Package, chromeRec.Main) :=
  ⟨⟨by decide, by decide, by decide⟩,
    exchange_roundtrip chromeRec (by decide) (by decide) (by decide)⟩

/-- Two lists sorted strictly by lowercased label that are permutations of
each other are equal. -/
theorem sorted_strict_key_perm_eq (l1 l2 : List AppInfo)
    (h1 : l1.Pairwise (fun a b => strLt (lowerStr a.Label) (lowerStr b.Label) = true))
    (h2 : l2.Pairwise (fun a b => strLt (lowerStr a.Label) (lowerStr b.Label) = true))
    (hp : l1.Perm l2) : l1 = l2 := by
  have hanti : IsAntisymm AppInfo
      (fun a b => strLt (lowerStr a.Label) (lowerStr b.Label) = true ∨ a = b) := by
    constructor
    intro a b hab hba
    rcases hab with hab | hab
    · rcases hba with hba | hba
      · have hf := strLt_asymm _ _ hab
        rw [hf] at hba
        exact Bool.noConfusion hba
      · exact hba.symm
    · exact hab
  exact @List.eq_of_perm_of_sorted _ _ hanti _ _ hp (h1.imp Or.inl) (h2.imp Or.inl)

/-- C6: the sort step orders records ascending by label compared
case-insensitively — every adjacent pair satisfies
`lower(A.label) ≤ lower(B.label)` — and a record labeled `apple` precedes
one labeled `Banana`. -/
theorem sort_case_insensitive_ascending :
    (∀ apps : List AppInfo,
      List.Chain' (fun a b => strLe (lowerStr a.Label) (lowerStr b.Label) = true)
        (sortApps apps)) ∧
    sortApps [⟨"Banana".toList, "com.b".toList, "m".toList⟩,
        ⟨"apple".toList, "com.a".toList, "m".toList⟩] =
      [⟨"apple".toList, "com.a".toList, "m".toList⟩,
        ⟨"Banana".toList, "com.b".toList, "m".toList⟩] := by
  constructor
  · intro apps
    exact (List.sorted_insertionSort appLe apps).chain'
  · decide

/-- C7 counterexample: with two records tied on lowercased label but
distinct otherwise, the two arrival orders are permutations of the same
collection yet the sort step returns different sequences. -/
theorem sort_tie_order_dependent_cex :
    ([⟨"app".toList, "com.y".toList, "m".toList⟩,
        ⟨"app".toList, "com.x".toList, "m".toList⟩] : List AppInfo).Perm
      [⟨"app".toList, "com.x".toList, "m".toList⟩,
        ⟨"app".toList, "com.y".toList, "m".toList⟩] ∧
    sortApps [⟨"app".toList, "com.y".toList, "m".toList⟩,
        ⟨"app".toList, "com.x".toList, "m".toList⟩] ≠
      sortApps [⟨"app".toList, "com.x".toList, "m".toList⟩,
        ⟨"app".toList, "com.y".toList, "m".toList⟩] := by
  constructor
  · exact List.Perm.swap _ _ _
  · decide

/-- C7 (amended): when the records' lowercased labels are pairwise
distinct, the presentation order is a function of the multiset of records
alone: any two arrival orders sort to the identical sequence. -/
theorem sort_determined_by_multiset (l1 l2 : List AppInfo) (hperm : l1.Perm l2)
    (hnodup : (l1.map (fun a => lowerStr a.Label)).Nodup) :
    sortApps l1 = sortApps l2 := by
  have p1 := List.perm_insertionSort appLe l1
  have p2 := List.perm_insertionSort appLe l2
  have s1 := List.sorted_insertionSort appLe l1
  have s2 := List.sorted_insertionSort appLe l2
  have hp12 : (sortApps l1).Perm (sortApps l2) := (p1.trans hperm).trans p2.symm
  have hn1 : ((sortApps l1).map (fun a => lowerStr a.Label)).Nodup :=
    ((p1.map (fun a => lowerStr a.Label)).nodup_iff).mpr hnodup
  have hn2 : ((sortApps l2).map (fun a => lowerStr a.Label)).Nodup :=
    ((hp12.map (fun a => lowerStr a.Label)).nodup_iff).mp hn1
  have hq1 : (sortApps l1).Pairwise (fun a b => lowerStr a.Label ≠ lowerStr b.Label) := by
    rw [List.Nodup, List.pairwise_map] at hn1
    exact hn1
  have hq2 : (sortApps l2).Pairwise (fun a b => lowerStr a.Label ≠ lowerStr b.Label) := by
    rw [List.Nodup, List.pairwise_map] at hn2
    exact hn2
  have hstrict : ∀ a b : AppInfo,
      appLe a b ∧ lowerStr a.Label ≠ lowerStr b.Label →
      strLt (lowerStr a.Label) (lowerStr b.Label) = true := by
    intro a b ⟨hle, hne⟩
    cases hlt : strLt (lowerStr a.Label) (lowerStr b.Label) with
    | true => rfl
    | false =>
      have hba : strLt (lowerStr b.Label) (lowerStr a.Label) = false := by
        have : strLe (lowerStr a.Label) (lowerStr b.Label) = true := hle
        simpa [strLe] using this
      exact absurd (strLt_connex _ _ hlt hba) hne
  have st1 : (sortApps l1).Pairwise
      (fun a b => strLt (lowerStr a.Label) (lowerStr b.Label) = true) :=
    (List.Pairwise.and s1 hq1).imp (fun h => hstrict _ _ h)
  have st2 : (sortApps l2).Pairwise
      (fun a b => strLt (lowerStr a.Label) (lowerStr b.Label) = true) :=
    (List.Pairwise.and s2 hq2).imp (fun h => hstrict _ _ h)
  exact sorted_strict_key_perm_eq _ _ st1 st2 hp12

/-- C7 witness: two records with distinct lowercased labels sort to the
same sequence from either arrival order. -/
theorem sort_determined_by_multiset_witness :
    (([⟨"apple".toList, "com.a".toList, "m".toList⟩,
        ⟨"Banana".toList, "com.b".toList, "m".toList⟩] : List AppInfo).Perm
      [⟨"Banana".toList, "com.b".toList, "m".toList⟩,
        ⟨"apple".toList, "com.a".toList, "m".toList⟩] ∧
      (([⟨"apple".toList, "com.a".toList, "m".toList⟩,
        ⟨"Banana".toList, "com.b".toList, "m".toList⟩] : List AppInfo).map
          (fun a => lowerStr a.Label)).Nodup) ∧
    sortApps [⟨"apple".toList, "com.a".toList, "m".toList⟩,
        ⟨"Banana".toList, "com.b".toList, "m".toList⟩] =
      sortApps [⟨"Banana".toList, "com.b".toList, "m".toList⟩,
        ⟨"apple".toList, "com.a".toList, "m".toList⟩] :=
  ⟨⟨by decide, by decide⟩, sort_determined_by_multiset _ _ (by decide) (by decide)⟩

/-- C4 (amended): the selector line carrying the code's actual sentinel,
`"SomeApp\tcom.example.app|UNKNOWN_MAIN"`, dispatches to the store-URL
path with the store details URL built from the identifier, which ends in
`details?id=com.example.app`. -/
theorem store_dispatch_on_sentinel :
    dispatchChosen "SomeApp\tcom.example.app|UNKNOWN_MAIN".toList =
      ⟨0, some (Dispatch.openUrl
        "https://play.google.com/store/apps/details?id=com.example.app".toList), true⟩ ∧
    ("details?id=com.example.app".toList).isSuffixOf
      "https://play.google.com/store/apps/details?id=com.example.app".toList = true := by
  decide

/-- C4 counterexample: the claim's line uses `UNKNOWN_ENTRY`, which the
code does not treat as the sentinel: it dispatches to the launch path with
target `com.example.app/UNKNOWN_ENTRY`, not to the store URL. -/
theorem store_dispatch_unknown_entry_cex :
    dispatchChosen "SomeApp\tcom.example.app|UNKNOWN_ENTRY".toList =
      ⟨0, some (Dispatch.launch "com.example.app/UNKNOWN_ENTRY".toList), true⟩ ∧
    (dispatchChosen "SomeApp\tcom.example.app|UNKNOWN_ENTRY".toList).dispatch ≠
      some (Dispatch.openUrl
        "https://play.google.com/store/apps/details?id=com.example.app".toList) := by
  decide

/-- The selection-and-dispatch tail of `main`: it exits 0 with a dispatch
exactly when the chosen line parses, exits 1 otherwise, and always runs
after the selector. -/
theorem dispatchChosen_spec (c : Str) :
    ((dispatchChosen c).exitCode = if (parseChosen c).isSome then 0 else 1) ∧
    (dispatchChosen c).dispatch.isSome = (parseChosen c).isSome ∧
    (dispatchChosen c).selectorInvoked = true := by
  unfold dispatchChosen parseChosen
  cases h : splitN2 tabChar c with
  | nil => simp
  | cons a t =>
    cases t with
    | nil => simp
    | cons line t2 =>
      cases t2 with
      | cons u t3 => simp
      | nil =>
        cases h2 : splitN2 pipeChar line with
        | nil => simp [h2]
        | cons p t3 =>
          cases t3 with
          | nil => simp [h2]
          | cons i t4 =>
            cases t4 with
            | cons v t5 => simp [h2]
            | nil => by_cases hi : i = unknownMain <;> simp [h2, hi]

/-- C8: the process exits 0 exactly when a dispatch (launch or store-URL
open) is reached, exits 1 exactly when the identifier list is empty, the
selector fails or returns empty output, or the chosen line is malformed
(missing tab or missing pipe), and with an empty identifier list the
selector is never invoked. -/
theorem exit_code_characterization (listOut : Str) (oracle : Str → ProbeOracle)
    (fzfOk : Bool) (fzfOut : Str) :
    ((mainModel listOut oracle fzfOk fzfOut).exitCode = 0 ↔
      (mainModel listOut oracle fzfOk fzfOut).dispatch.isSome = true) ∧
    ((mainModel listOut oracle fzfOk fzfOut).exitCode = 1 ↔
      (getPackages listOut = [] ∨ fzfOk = false ∨ trimSpace fzfOut = [] ∨
        parseChosen (trimSpace fzfOut) = none)) ∧
    (getPackages listOut = [] →
      (mainModel listOut oracle fzfOk fzfOut).selectorInvoked = false) := by
  unfold mainModel
  by_cases hpk : (getPackages listOut).isEmpty = true
  · have hpk' : getPackages listOut = [] := List.isEmpty_iff.mp hpk
    simp [hpk, hpk']
  · have hpk' : ¬ getPackages listOut = [] := fun e => hpk (by simp [e])
    simp only [hpk, if_false, Bool.false_eq_true]
    cases fzfOk with
    | false => simp [hpk']
    | true =>
      simp only [Bool.not_true, Bool.false_eq_true, if_false]
      by_cases hch : (trimSpace fzfOut).isEmpty = true
      · have hch' : trimSpace fzfOut = [] := List.isEmpty_iff.mp hch
        simp [hch, hch', hpk']
      · have hch' : ¬ trimSpace fzfOut = [] := fun e => hch (by simp [e])
        simp only [hch, Bool.false_eq_true, if_false]
        obtain ⟨e1, e2, e3⟩ := dispatchChosen_spec (trimSpace fzfOut)
        rw [e1, e2, e3]
        cases hps : (parseChosen (trimSpace fzfOut)).isSome with
        | true =>
          have hps' : ¬ parseChosen (trimSpace fzfOut) = none := by
            intro e; rw [e] at hps; exact Bool.noConfusion hps
          simp [hps, hps', hpk', hch']
        | false =>
          have hps' : parseChosen (trimSpace fzfOut) = none :=
            Option.not_isSome_iff_eq_none.mp (by rw [hps]; exact Bool.noConfusion)
          simp [hps, hps', hpk', hch']

/-- C8 witness: with empty listing output the process exits without
invoking the selector. -/
theorem exit_code_characterization_witness :
    getPackages [] = [] ∧
    (mainModel [] (fun _ => failOracle) true []).selectorInvoked = false :=
  ⟨rfl, (exit_code_characterization [] (fun _ => failOracle) true []).2.2 rfl⟩

end Drawercli
